import Mathlib

/-!
Verification of `scripts/generate_appcast.py`: a shallow embedding of the
script's pure transformation pipeline (version extraction, asset selection,
timestamp normalization, XML escaping and serialization, and the top-level
control flow), together with theorems settling the specification claims.

Python strings are modelled as Lean `String`/`List Char`; Python `None` is
`Option.none`; Python exceptions are `Except` errors; the process environment,
the single HTTP fetch and the single file write are modelled explicitly in an
`Env`/`RunResult` pair, so the top-level `run` function is a pure function of
the fetch outcome.
-/

set_option autoImplicit false

namespace Appcast

/-! ## Python string primitives used by the script -/

/-- Python `str.replace(old, new)` for a single-character pattern: every
occurrence of `old` is replaced by `new`, in one left-to-right pass that does
not rescan replacement text. -/
def replaceChar (old : Char) (new : List Char) : List Char → List Char
  | [] => []
  | c :: cs => (if c = old then new else [c]) ++ replaceChar old new cs

/-- Python `str.replace(old, new)` for a multi-character pattern: leftmost,
non-overlapping matches are replaced in one pass; after a match, scanning
resumes after the replaced text.  (Never used with an empty `old` in this
development, so the empty-pattern branch simply returns the input.) -/
def replaceSeq (old rep : List Char) : List Char → List Char
  | [] => []
  | c :: cs =>
    if old.isPrefixOf (c :: cs) && !old.isEmpty then
      rep ++ replaceSeq old rep (cs.drop (old.length - 1))
    else
      c :: replaceSeq old rep cs
  termination_by s => s.length
  decreasing_by
    · simp only [List.length_drop, List.length_cons]
      omega
    · simp only [List.length_cons]
      omega

/-- Python truthiness of an optional string: `None` and `''` are falsy. -/
def truthy : Option String → Bool
  | none => false
  | some s => !s.data.isEmpty

/-- Python `a or b` on optional strings. -/
def pyOr (a b : Option String) : Option String :=
  if truthy a then a else b

/-- Python `str.lower()` (ASCII case mapping, which is all the script's
extension matching relies on). -/
def pyLower (s : String) : String :=
  ⟨s.data.map Char.toLower⟩

/-- Python `str.endswith(suffix)`. -/
def pyEndswith (s ext : String) : Bool :=
  ext.data.isSuffixOf s.data

/-- Python `str.lstrip('v')`: removes every leading `'v'` character. -/
def lstripV (s : String) : String :=
  ⟨s.data.dropWhile (fun c => c = 'v')⟩

/-! ## `xml.sax.saxutils` escaping, as used by the script

`sax.escape(data)` with the default (empty) entity map performs exactly three
single-character replaces, in this order: `&` → `&amp;`, then `>` → `&gt;`,
then `<` → `&lt;`.  `sax.unescape(data)` performs `&lt;` → `<`, then
`&gt;` → `>`, then `&amp;` → `&`.  Neither touches quote characters. -/

/-- `xml.sax.saxutils.escape` with the default entity map. -/
def saxEscape (s : String) : String :=
  ⟨replaceChar '<' "&lt;".data
    (replaceChar '>' "&gt;".data
      (replaceChar '&' "&amp;".data s.data))⟩

/-- `xml.sax.saxutils.unescape` with the default entity map. -/
def saxUnescape (s : String) : String :=
  ⟨replaceSeq "&amp;".data "&".data
    (replaceSeq "&gt;".data ">".data
      (replaceSeq "&lt;".data "<".data s.data))⟩

/-- Spec-side predicate: a character sequence is acceptable XML text content if
it contains no raw `<` and every `&` begins one of the three entity references
the script's escaper can emit (`&amp;`, `&lt;`, `&gt;`). -/
def xmlTextOk : List Char → Bool
  | [] => true
  | c :: rest =>
    if c = '<' then false
    else if c = '&' then
      ("amp;".data.isPrefixOf rest || "lt;".data.isPrefixOf rest
        || "gt;".data.isPrefixOf rest) && xmlTextOk rest
    else xmlTextOk rest

/-- Proof infrastructure: the per-character effect of the full escape chain
(`&` → `&amp;`, `>` → `&gt;`, `<` → `&lt;`, everything else unchanged). -/
def escChar (c : Char) : List Char :=
  if c = '&' then ['&', 'a', 'm', 'p', ';']
  else if c = '>' then ['&', 'g', 't', ';']
  else if c = '<' then ['&', 'l', 't', ';']
  else [c]

def escList : List Char → List Char
  | [] => []
  | c :: cs => escChar c ++ escList cs

/-- Proof infrastructure: the state of an escaped string after unescape's
first pass (`&lt;` restored to `<`). -/
def esc1Char (c : Char) : List Char :=
  if c = '&' then ['&', 'a', 'm', 'p', ';']
  else if c = '>' then ['&', 'g', 't', ';']
  else [c]

def esc1List : List Char → List Char
  | [] => []
  | c :: cs => esc1Char c ++ esc1List cs

/-- Proof infrastructure: the state after unescape's second pass (`&gt;`
restored to `>`). -/
def esc2Char (c : Char) : List Char :=
  if c = '&' then ['&', 'a', 'm', 'p', ';'] else [c]

def esc2List : List Char → List Char
  | [] => []
  | c :: cs => esc2Char c ++ esc2List cs

/-! ## Data model (JSON records the script reads) -/

/-- One element of a release's `assets` array; each field may be absent. -/
structure Asset where
  name : Option String
  browser_download_url : Option String
  size : Option Int
deriving DecidableEq

/-- One element of the releases array returned by the API.  An absent or empty
`assets` array is modelled as `[]` (the script reads it via
`rel.get('assets', [])`). -/
structure Release where
  tag_name : Option String
  name : Option String
  html_url : Option String
  published_at : Option String
  created_at : Option String
  assets : List Asset
deriving DecidableEq

/-- The per-release dictionary appended to `items` by the script.  `title`,
`notes` and `url` may be Python `None` (the script copies them unchecked);
`pubDate`, `length` and `version` are always strings. -/
structure Item where
  title : Option String
  notes : Option String
  pubDate : String
  url : Option String
  length : String
  version : String
deriving DecidableEq

/-! ## Asset selection (lines 63–78 of the script) -/

/-- The fixed extension priority table, in the dict's insertion order. -/
def ext_priority : List (String × Nat) :=
  [(".zip", 0), (".dmg", 1), (".pkg", 2)]

/-- The priority of an asset: its lowercased name is tested against the
extensions in table order, and the first match's rank is used (the loop
`break`s at the first matching extension). -/
def assetRank (a : Asset) : Option Nat :=
  (ext_priority.find? (fun e => pyEndswith (pyLower (a.name.getD "")) e.1)).map
    (fun e => e.2)

/-- The selection loop: `preferred`/`preferred_prio` accumulator over the
assets in list order; an asset replaces the current best only when the best is
unset or the asset's rank is strictly lower. -/
def selectAsset : List Asset → Option (Asset × Nat) → Option (Asset × Nat)
  | [], best => best
  | a :: rest, best =>
    match assetRank a with
    | none => selectAsset rest best
    | some prio =>
      match best with
      | none => selectAsset rest (some (a, prio))
      | some (b, bp) =>
        if prio < bp then selectAsset rest (some (a, prio))
        else selectAsset rest (some (b, bp))

/-! ## Version extraction (line 82) -/

/-- `tag.lstrip('v') if tag else ''`. -/
def versionOf (tag : Option String) : String :=
  if truthy tag then lstripV (tag.getD "") else ""

/-! ## Timestamp normalization (`iso_to_rfc2822`, lines 20–23)

The script calls `datetime.fromisoformat(iso.replace('Z', '+00:00'))` and then
`dt.strftime('%a, %d %b %Y %H:%M:%S %z')`.  `fromisoformat` is modelled for
the `YYYY-MM-DDTHH:MM:SS` shape with an optional `±HH:MM` offset — the shape
the script's inputs take after the `Z` replacement; any other input is a parse
failure (Python raises `ValueError`), modelled as `none`. -/

/-- A parsed `datetime` value; `tzMinutes` is the UTC offset in minutes, or
`none` for a naive datetime (no offset in the input string). -/
structure PyDateTime where
  year : Nat
  month : Nat
  day : Nat
  hour : Nat
  minute : Nat
  second : Nat
  tzMinutes : Option Int
deriving DecidableEq

def digitVal (c : Char) : Option Nat :=
  if c.isDigit then some (c.toNat - 48) else none

def read2 : List Char → Option (Nat × List Char)
  | a :: b :: rest => do
    let x ← digitVal a
    let y ← digitVal b
    some (10 * x + y, rest)
  | _ => none

def read4 : List Char → Option (Nat × List Char)
  | a :: b :: c :: d :: rest => do
    let x ← digitVal a
    let y ← digitVal b
    let z ← digitVal c
    let w ← digitVal d
    some (1000 * x + 100 * y + 10 * z + w, rest)
  | _ => none

def expectChar (c : Char) : List Char → Option (List Char)
  | x :: rest => if x = c then some rest else none
  | [] => none

def isLeap (y : Nat) : Bool :=
  y % 4 == 0 && (y % 100 != 0 || y % 400 == 0)

def daysInMonth (y m : Nat) : Nat :=
  if m = 2 then (if isLeap y then 29 else 28)
  else if m = 4 ∨ m = 6 ∨ m = 9 ∨ m = 11 then 30
  else 31

/-- The trailing `±HH:MM` offset, or no offset at all (empty remainder). -/
def parseOffsetPart : List Char → Option (Option Int)
  | [] => some none
  | s :: rest =>
    if s = '+' ∨ s = '-' then do
      let (h, r1) ← read2 rest
      let r2 ← expectChar ':' r1
      let (m, r3) ← read2 r2
      match r3 with
      | [] =>
        if h ≤ 23 ∧ m ≤ 59 then
          some (some ((if s = '-' then (-1 : Int) else 1) * (h * 60 + m : Nat)))
        else none
      | _ => none
    else none

/-- Modelled from the Python standard library: `datetime.fromisoformat`,
restricted to `YYYY-MM-DDTHH:MM:SS[±HH:MM]` (see the section comment); field
ranges are validated as CPython does (`MINYEAR`/`MAXYEAR`, calendar day
ranges, 24-hour clock). -/
def fromisoformat (s : String) : Option PyDateTime := do
  let (y, r1) ← read4 s.data
  let r2 ← expectChar '-' r1
  let (mo, r3) ← read2 r2
  let r4 ← expectChar '-' r3
  let (d, r5) ← read2 r4
  let r6 ← expectChar 'T' r5
  let (h, r7) ← read2 r6
  let r8 ← expectChar ':' r7
  let (mi, r9) ← read2 r8
  let r10 ← expectChar ':' r9
  let (sec, r11) ← read2 r10
  let tz ← parseOffsetPart r11
  if 1 ≤ y ∧ y ≤ 9999 ∧ 1 ≤ mo ∧ mo ≤ 12 ∧ 1 ≤ d ∧ d ≤ daysInMonth y mo
      ∧ h ≤ 23 ∧ mi ≤ 59 ∧ sec ≤ 59 then
    some ⟨y, mo, d, h, mi, sec, tz⟩
  else none

def pad2 (n : Nat) : String :=
  if n < 10 then "0" ++ toString n else toString n

def monthAbbrev : Nat → String
  | 1 => "Jan" | 2 => "Feb" | 3 => "Mar" | 4 => "Apr" | 5 => "May" | 6 => "Jun"
  | 7 => "Jul" | 8 => "Aug" | 9 => "Sep" | 10 => "Oct" | 11 => "Nov" | _ => "Dec"

/-- Day of the week by Zeller's congruence: `0` = Saturday, `1` = Sunday,
`2` = Monday, and so on. -/
def weekday (y m d : Nat) : Nat :=
  let m2 := if m ≤ 2 then m + 12 else m
  let y2 := if m ≤ 2 then y - 1 else y
  let k := y2 % 100
  let j := y2 / 100
  (d + (13 * (m2 + 1)) / 5 + k + k / 4 + j / 4 + 5 * j) % 7

def dayAbbrev : Nat → String
  | 0 => "Sat" | 1 => "Sun" | 2 => "Mon" | 3 => "Tue" | 4 => "Wed" | 5 => "Thu"
  | _ => "Fri"

/-- `strftime`'s `%z`: empty for a naive datetime, else `±HHMM`. -/
def formatTz : Option Int → String
  | none => ""
  | some off =>
    (if off < 0 then "-" else "+") ++ pad2 (off.natAbs / 60) ++ pad2 (off.natAbs % 60)

/-- `dt.strftime('%a, %d %b %Y %H:%M:%S %z')` (C locale abbreviations). -/
def strftimeRfc (dt : PyDateTime) : String :=
  dayAbbrev (weekday dt.year dt.month dt.day) ++ ", " ++ pad2 dt.day ++ " "
    ++ monthAbbrev dt.month ++ " " ++ toString dt.year ++ " " ++ pad2 dt.hour
    ++ ":" ++ pad2 dt.minute ++ ":" ++ pad2 dt.second ++ " "
    ++ formatTz dt.tzMinutes

/-- The script's `iso_to_rfc2822`; `none` models the `ValueError` raised by
`datetime.fromisoformat` on unparseable input. -/
def iso_to_rfc2822 (iso : String) : Option String :=
  (fromisoformat ⟨replaceChar 'Z' "+00:00".data iso.data⟩).map strftimeRfc

/-! ## Per-release item construction (lines 57–90) -/

/-- `rel.get('published_at') or rel.get('created_at')`. -/
def pubField (rel : Release) : Option String :=
  pyOr rel.published_at rel.created_at

/-- The body of the `for rel in releases` loop: at most one item per release;
`none` when no asset matched (`continue`); an error models the uncaught
`ValueError` when a present, truthy timestamp fails to parse. -/
def buildItem (rel : Release) : Except String (Option Item) :=
  match selectAsset rel.assets none with
  | none => Except.ok none
  | some (a, _) =>
    if truthy (pubField rel) then
      match iso_to_rfc2822 ((pubField rel).getD "") with
      | none => Except.error "ValueError: invalid isoformat string"
      | some d =>
        Except.ok (some ⟨pyOr rel.name rel.tag_name, rel.html_url, d,
          a.browser_download_url, toString (a.size.getD 0), versionOf rel.tag_name⟩)
    else
      Except.ok (some ⟨pyOr rel.name rel.tag_name, rel.html_url, "",
        a.browser_download_url, toString (a.size.getD 0), versionOf rel.tag_name⟩)

/-- The whole loop, in release order; the first raised exception aborts. -/
def buildItems : List Release → Except String (List Item)
  | [] => Except.ok []
  | r :: rs => do
    let it ← buildItem r
    let rest ← buildItems rs
    match it with
    | none => Except.ok rest
    | some i => Except.ok (i :: rest)

/-! ## XML serialization (lines 92–111) -/

/-- `sax.escape` applied to a value that may be Python `None`; escaping `None`
raises (`'NoneType' object has no attribute 'replace'`). -/
def escapeOpt : Option String → Except String String
  | none => Except.error "TypeError: NoneType has no replace"
  | some s => Except.ok (saxEscape s)

/-- The lines appended for one item (lines 102–108), in order; the escapes of
`title`, `notes` and `url` are the fallible ones and are evaluated in that
order. -/
def itemLines (it : Item) : Except String (List String) :=
  match escapeOpt it.title with
  | Except.error e => Except.error e
  | Except.ok t =>
  match escapeOpt it.notes with
  | Except.error e => Except.error e
  | Except.ok n =>
  match escapeOpt it.url with
  | Except.error e => Except.error e
  | Except.ok u =>
  Except.ok ["<item>",
    "<title>" ++ t ++ "</title>",
    "<sparkle:releaseNotesLink>" ++ n ++ "</sparkle:releaseNotesLink>",
    "<pubDate>" ++ saxEscape it.pubDate ++ "</pubDate>",
    "<enclosure url=\"" ++ u ++ "\" sparkle:version=\""
      ++ saxEscape it.version ++ "\" sparkle:shortVersionString=\""
      ++ saxEscape it.version ++ "\" length=\"" ++ saxEscape it.length
      ++ "\" type=\"application/octet-stream\" />",
    "</item>"]

def itemsLines : List Item → Except String (List String)
  | [] => Except.ok []
  | it :: rest => do
    let l ← itemLines it
    let ls ← itemsLines rest
    Except.ok (l ++ ls)

/-- The fixed channel header (lines 94–100). -/
def headerLines (repo : String) : List String :=
  ["<?xml version=\"1.0\" encoding=\"utf-8\"?>",
   "<rss version=\"2.0\" xmlns:sparkle=\"http://www.andymatuschak.org/xml-namespaces/sparkle\" xmlns:dc=\"http://purl.org/dc/elements/1.1/\">",
   "<channel>",
   "<title>" ++ saxEscape repo ++ " updates</title>",
   "<link>" ++ saxEscape ("https://github.com/" ++ repo) ++ "</link>",
   "<description>App updates generated from GitHub Releases</description>",
   "<!-- WARNING: This generated appcast does NOT include Sparkle signatures.\n                 Do NOT use unsigned updates in production.\n                 Sign your update archives with EdDSA (Ed25519) and include sparkle:edSignature attributes in the enclosure elements. -->"]

/-- The complete document: header, items, closing tags, joined by newlines. -/
def appcast (repo : String) (items : List Item) : Except String String := do
  let il ← itemsLines items
  Except.ok (String.intercalate "\n" (headerLines repo ++ il ++ ["</channel>", "</rss>"]))

/-! ## Top-level control flow (`main`, lines 26–120) -/

/-- The three fatal fetch outcomes the script distinguishes: `HTTPError`
(non-2xx), `URLError` (connection failure), `json.JSONDecodeError`. -/
inductive FetchError
  | httpError
  | urlError
  | jsonError
deriving DecidableEq

/-- The inputs `main` consumes: the two environment variables and the outcome
of the single HTTP fetch (which only happens if the repository check passes). -/
structure Env where
  github_repository : Option String
  github_token : Option String
  fetch : Except FetchError (List Release)

/-- Observable outcome of one invocation: the process exit code (`0` normal
return, `1` uncaught exception, `2`–`4` explicit `sys.exit` codes), whether
the HTTP request was issued, and the file content written (`none` when no
write happened). -/
structure RunResult where
  exitCode : Nat
  requested : Bool
  written : Option String
deriving DecidableEq

/-- `main`: check `GITHUB_REPOSITORY`, fetch, build items, serialize, write. -/
def run (env : Env) : RunResult :=
  if truthy env.github_repository then
    match env.fetch with
    | Except.error FetchError.httpError => ⟨3, true, none⟩
    | Except.error FetchError.urlError => ⟨3, true, none⟩
    | Except.error FetchError.jsonError => ⟨4, true, none⟩
    | Except.ok releases =>
      match buildItems releases with
      | Except.error _ => ⟨1, true, none⟩
      | Except.ok items =>
        match appcast (env.github_repository.getD "") items with
        | Except.error _ => ⟨1, true, none⟩
        | Except.ok doc => ⟨0, true, some doc⟩
  else ⟨2, false, none⟩

/-! ## Concrete fixtures used by counterexamples and witnesses -/

def dmgAsset : Asset := ⟨some "App-1.0.dmg", none, none⟩

def zipAsset : Asset := ⟨some "App-1.0.zip", none, none⟩

/-- A well-formed release: tag `v1.0.0`, a `.zip` asset, a `Z` timestamp. -/
def zipRelease : Release :=
  ⟨some "v1.0.0", some "Rel", some "https://example.com/r",
    some "2024-02-05T12:34:56Z", none,
    [⟨some "App-1.0.zip", some "https://example.com/a.zip", some 5⟩]⟩

/-- A release with a matching asset but neither `tag_name` nor `name`. -/
def noTitleRelease : Release :=
  ⟨none, none, some "https://example.com/rel", none, none,
    [⟨some "App.zip", some "https://example.com/App.zip", some 5⟩]⟩

def noTitleEnv : Env := ⟨some "owner/repo", none, Except.ok [noTitleRelease]⟩

/-- A release with a matching asset, no timestamps, no `size` on the asset. -/
def noDateRelease : Release :=
  ⟨some "v1.0.0", some "Rel", some "https://example.com/r", none, none,
    [⟨some "App-1.0.zip", some "https://example.com/a.zip", none⟩]⟩

/-- Precondition on a release's timestamp, taken from the spec's upstream
interface (§6, §4.4): `published_at`/`created_at`, when present and non-empty,
is an ISO-8601 timestamp that the normalizer can parse. -/
abbrev dateOk (rel : Release) : Prop :=
  truthy (pubField rel) = true →
    (iso_to_rfc2822 ((pubField rel).getD "")).isSome = true

/-! ## Lemmas about the asset-selection loop -/

theorem selectAsset_cons_none (a : Asset) (rest : List Asset)
    (best : Option (Asset × Nat)) (h : assetRank a = none) :
    selectAsset (a :: rest) best = selectAsset rest best := by
  simp [selectAsset, h]

theorem selectAsset_cons_some (a : Asset) (p : Nat) (rest : List Asset)
    (h : assetRank a = some p) :
    selectAsset (a :: rest) none = selectAsset rest (some (a, p)) := by
  simp [selectAsset, h]

theorem selectAsset_cons_if (a : Asset) (p : Nat) (rest : List Asset)
    (b : Asset) (bp : Nat) (h : assetRank a = some p) :
    selectAsset (a :: rest) (some (b, bp)) =
      if p < bp then selectAsset rest (some (a, p))
      else selectAsset rest (some (b, bp)) := by
  simp [selectAsset, h]

theorem selectAsset_isSome : ∀ (assets : List Asset) (b : Asset) (bp : Nat),
    (selectAsset assets (some (b, bp))).isSome = true := by
  intro assets
  induction assets with
  | nil => intro b bp; rfl
  | cons a rest ih =>
    intro b bp
    cases hra : assetRank a with
    | none => rw [selectAsset_cons_none a rest _ hra]; exact ih b bp
    | some p =>
      rw [selectAsset_cons_if a p rest b bp hra]
      by_cases hp : p < bp
      · rw [if_pos hp]; exact ih a p
      · rw [if_neg hp]; exact ih b bp

theorem selectAsset_none_iff : ∀ assets : List Asset,
    selectAsset assets none = none ↔ ∀ a ∈ assets, assetRank a = none := by
  intro assets
  induction assets with
  | nil => simp [selectAsset]
  | cons a rest ih =>
    cases hra : assetRank a with
    | none =>
      rw [selectAsset_cons_none a rest none hra]
      simp only [List.mem_cons]
      constructor
      · intro h x hx
        rcases hx with rfl | hx
        · exact hra
        · exact (ih.mp h) x hx
      · intro h
        exact ih.mpr (fun x hx => h x (Or.inr hx))
    | some p =>
      rw [selectAsset_cons_some a p rest hra]
      constructor
      · intro h
        have hs := selectAsset_isSome rest a p
        rw [h] at hs
        cases hs
      · intro h
        have := h a (List.mem_cons_self a rest)
        rw [hra] at this
        cases this

theorem selectAsset_min : ∀ (assets : List Asset) (b : Asset) (bp : Nat)
    (c : Asset) (cp : Nat), selectAsset assets (some (b, bp)) = some (c, cp) →
    cp ≤ bp ∧ ∀ a ∈ assets, ∀ r, assetRank a = some r → cp ≤ r := by
  intro assets
  induction assets with
  | nil =>
    intro b bp c cp h
    simp only [selectAsset, Option.some.injEq, Prod.mk.injEq] at h
    obtain ⟨-, h2⟩ := h
    subst h2
    exact ⟨Nat.le_refl _, by simp⟩
  | cons a rest ih =>
    intro b bp c cp h
    cases hra : assetRank a with
    | none =>
      rw [selectAsset_cons_none a rest _ hra] at h
      obtain ⟨h1, h2⟩ := ih b bp c cp h
      refine ⟨h1, ?_⟩
      intro x hx r hr
      rcases List.mem_cons.mp hx with rfl | hx
      · rw [hra] at hr; cases hr
      · exact h2 x hx r hr
    | some p =>
      rw [selectAsset_cons_if a p rest b bp hra] at h
      by_cases hp : p < bp
      · rw [if_pos hp] at h
        obtain ⟨h1, h2⟩ := ih a p c cp h
        refine ⟨Nat.le_trans h1 (Nat.le_of_lt hp), ?_⟩
        intro x hx r hr
        rcases List.mem_cons.mp hx with rfl | hx
        · rw [hra] at hr; injection hr with hr; omega
        · exact h2 x hx r hr
      · rw [if_neg hp] at h
        obtain ⟨h1, h2⟩ := ih b bp c cp h
        refine ⟨h1, ?_⟩
        intro x hx r hr
        rcases List.mem_cons.mp hx with rfl | hx
        · rw [hra] at hr; injection hr with hr; omega
        · exact h2 x hx r hr

theorem selectAsset_first : ∀ (assets : List Asset) (b : Asset) (bp : Nat)
    (c : Asset) (cp : Nat), selectAsset assets (some (b, bp)) = some (c, cp) →
    (c = b ∧ cp = bp) ∨
    (∃ pre post, assets = pre ++ c :: post ∧ assetRank c = some cp ∧ cp < bp ∧
      ∀ a ∈ pre, ∀ r, assetRank a = some r → cp < r) := by
  intro assets
  induction assets with
  | nil =>
    intro b bp c cp h
    simp only [selectAsset, Option.some.injEq, Prod.mk.injEq] at h
    exact Or.inl ⟨h.1.symm, h.2.symm⟩
  | cons a rest ih =>
    intro b bp c cp h
    cases hra : assetRank a with
    | none =>
      rw [selectAsset_cons_none a rest _ hra] at h
      rcases ih b bp c cp h with hl | ⟨pre, post, he, hrc, hlt, hpre⟩
      · exact Or.inl hl
      · refine Or.inr ⟨a :: pre, post, by rw [he]; rfl, hrc, hlt, ?_⟩
        intro x hx r hr
        rcases List.mem_cons.mp hx with rfl | hx
        · rw [hra] at hr; cases hr
        · exact hpre x hx r hr
    | some p =>
      rw [selectAsset_cons_if a p rest b bp hra] at h
      by_cases hp : p < bp
      · rw [if_pos hp] at h
        rcases ih a p c cp h with ⟨hc, hcp⟩ | ⟨pre, post, he, hrc, hlt, hpre⟩
        · subst hc; subst hcp
          exact Or.inr ⟨[], rest, rfl, hra, hp, by simp⟩
        · refine Or.inr ⟨a :: pre, post, by rw [he]; rfl, hrc,
            Nat.lt_trans hlt hp, ?_⟩
          intro x hx r hr
          rcases List.mem_cons.mp hx with rfl | hx
          · rw [hra] at hr; injection hr with hr; omega
          · exact hpre x hx r hr
      · rw [if_neg hp] at h
        rcases ih b bp c cp h with hl | ⟨pre, post, he, hrc, hlt, hpre⟩
        · exact Or.inl hl
        · refine Or.inr ⟨a :: pre, post, by rw [he]; rfl, hrc, hlt, ?_⟩
          intro x hx r hr
          rcases List.mem_cons.mp hx with rfl | hx
          · rw [hra] at hr; injection hr with hr; omega
          · exact hpre x hx r hr

theorem selectAsset_first_min : ∀ (assets : List Asset) (c : Asset) (cp : Nat),
    selectAsset assets none = some (c, cp) →
    assetRank c = some cp ∧
    (∀ a ∈ assets, ∀ r, assetRank a = some r → cp ≤ r) ∧
    ∃ pre post, assets = pre ++ c :: post ∧
      ∀ a ∈ pre, ∀ r, assetRank a = some r → cp < r := by
  intro assets
  induction assets with
  | nil => intro c cp h; simp [selectAsset] at h
  | cons a rest ih =>
    intro c cp h
    cases hra : assetRank a with
    | none =>
      rw [selectAsset_cons_none a rest _ hra] at h
      obtain ⟨h1, h2, pre, post, he, hpre⟩ := ih c cp h
      refine ⟨h1, ?_, a :: pre, post, by rw [he]; rfl, ?_⟩
      · intro x hx r hr
        rcases List.mem_cons.mp hx with rfl | hx
        · rw [hra] at hr; cases hr
        · exact h2 x hx r hr
      · intro x hx r hr
        rcases List.mem_cons.mp hx with rfl | hx
        · rw [hra] at hr; cases hr
        · exact hpre x hx r hr
    | some p =>
      rw [selectAsset_cons_some a p rest hra] at h
      have hmin := selectAsset_min rest a p c cp h
      rcases selectAsset_first rest a p c cp h with ⟨hc, hcp⟩ | ⟨pre, post, he, hrc, hlt, hpre⟩
      · subst hc; subst hcp
        refine ⟨hra, ?_, [], rest, rfl, by simp⟩
        intro x hx r hr
        rcases List.mem_cons.mp hx with rfl | hx
        · rw [hra] at hr; injection hr with hr; omega
        · exact hmin.2 x hx r hr
      · refine ⟨hrc, ?_, a :: pre, post, by rw [he]; rfl, ?_⟩
        · intro x hx r hr
          rcases List.mem_cons.mp hx with rfl | hx
          · rw [hra] at hr; injection hr with hr; omega
          · exact hmin.2 x hx r hr
        · intro x hx r hr
          rcases List.mem_cons.mp hx with rfl | hx
          · rw [hra] at hr; injection hr with hr; omega
          · exact hpre x hx r hr

theorem buildItem_length : ∀ (rel : Release) (a : Asset) (p : Nat) (it : Item),
    selectAsset rel.assets none = some (a, p) →
    buildItem rel = Except.ok (some it) →
    it.length = toString (a.size.getD 0) := by
  intro rel a p it hsel hit
  simp only [buildItem, hsel] at hit
  by_cases hp : truthy (pubField rel) = true
  · rw [if_pos hp] at hit
    cases hiso : iso_to_rfc2822 ((pubField rel).getD "") with
    | none => rw [hiso] at hit; cases hit
    | some d =>
      rw [hiso] at hit
      simp only [Except.ok.injEq, Option.some.injEq] at hit
      rw [← hit]
  · rw [if_neg hp] at hit
    simp only [Except.ok.injEq, Option.some.injEq] at hit
    rw [← hit]

theorem head_dropWhile_v (l : List Char) :
    (l.dropWhile (fun c => c = 'v')).head? ≠ some 'v' := by
  induction l with
  | nil => simp
  | cons a as ih =>
    by_cases ha : a = 'v'
    · simpa [List.dropWhile_cons, ha] using ih
    · simp [List.dropWhile_cons, ha]

/-! ## Claim C1 (version extraction strips leading `v`s) -/

/-- C1, counterexample: on tag `vv2.3.1` the extractor does NOT return the tag
minus only its first character (`v2.3.1`); `lstrip('v')` removes every leading
`v`. -/
theorem version_lstrip_counterexample :
    versionOf (some "vv2.3.1") ≠ "v2.3.1" := by decide

/-- C1, amended: the version extractor strips ALL leading `v` characters (not
exactly one); a tag that does not start with `v` is returned unchanged, the
result never starts with `v`, and `vv2.3.1` yields `2.3.1`. -/
theorem version_strip_all_amended :
    (∀ t : String, t.data.head? ≠ some 'v' → versionOf (some t) = t) ∧
    (∀ t : String, (versionOf (some t)).data.head? ≠ some 'v') ∧
    versionOf (some "vv2.3.1") = "2.3.1" := by
  refine ⟨?_, ?_, by decide⟩
  · intro t ht
    obtain ⟨l⟩ := t
    cases l with
    | nil => rfl
    | cons c cs =>
      have hc : ¬ c = 'v' := fun he => ht (by simp [he])
      simp [versionOf, truthy, lstripV, List.dropWhile_cons, hc]
  · intro t
    obtain ⟨l⟩ := t
    cases l with
    | nil => intro h; cases h
    | cons c cs =>
      simpa [versionOf, truthy, lstripV] using head_dropWhile_v (c :: cs)

/-- C1 witness: a tag with no leading `v` is returned unchanged. -/
theorem version_strip_all_amended_witness :
    versionOf (some "2.3.1") = "2.3.1" :=
  version_strip_all_amended.1 "2.3.1" (by decide)

/-! ## Claim C4 (asset selection: lowest rank wins, first wins on ties) -/

/-- C4: whenever the selector returns an asset, that asset has the lowest rank
among all matching assets of the release, and it is the FIRST asset of that
rank in list order (every earlier asset with a rank has a strictly larger
rank); moreover with assets `App-1.0.dmg` and `App-1.0.zip` in either order
the `.zip` asset (rank 0) is chosen. -/
theorem selector_priority_first_min :
    (∀ (assets : List Asset) (c : Asset) (cp : Nat),
      selectAsset assets none = some (c, cp) →
      assetRank c = some cp ∧
      (∀ a ∈ assets, ∀ r, assetRank a = some r → cp ≤ r) ∧
      ∃ pre post, assets = pre ++ c :: post ∧
        ∀ a ∈ pre, ∀ r, assetRank a = some r → cp < r) ∧
    selectAsset [dmgAsset, zipAsset] none = some (zipAsset, 0) ∧
    selectAsset [zipAsset, dmgAsset] none = some (zipAsset, 0) :=
  ⟨selectAsset_first_min, by decide, by decide⟩

/-- C4 witness: the general part applied to the concrete two-asset release. -/
theorem selector_priority_first_min_witness :
    assetRank zipAsset = some 0 ∧
    (∀ a ∈ [dmgAsset, zipAsset], ∀ r, assetRank a = some r → 0 ≤ r) ∧
    ∃ pre post, [dmgAsset, zipAsset] = pre ++ zipAsset :: post ∧
      ∀ a ∈ pre, ∀ r, assetRank a = some r → 0 < r :=
  selector_priority_first_min.1 [dmgAsset, zipAsset] zipAsset 0 (by decide)

/-! ## Claim C5 (exactly one item per matching release, zero otherwise) -/

/-- C5: a release none of whose assets matches `.zip`/`.dmg`/`.pkg`
(case-insensitively) contributes no item, unconditionally; a release with at
least one matching asset contributes exactly one item (the timestamp
precondition `dateOk` is the spec's upstream-interface assumption that a
present timestamp is ISO-formatted). -/
theorem items_per_release : ∀ rel : Release,
    ((∀ a ∈ rel.assets, assetRank a = none) → buildItem rel = Except.ok none) ∧
    ((∃ a ∈ rel.assets, assetRank a ≠ none) → dateOk rel →
      ∃ it, buildItem rel = Except.ok (some it)) := by
  intro rel
  constructor
  · intro h
    have hz := (selectAsset_none_iff rel.assets).mpr h
    simp [buildItem, hz]
  · rintro ⟨a, ha, hr⟩ hd
    cases hsel : selectAsset rel.assets none with
    | none => exact absurd ((selectAsset_none_iff rel.assets).mp hsel a ha) hr
    | some x =>
      obtain ⟨b, bp⟩ := x
      by_cases hp : truthy (pubField rel) = true
      · obtain ⟨d, hd2⟩ := Option.isSome_iff_exists.mp (hd hp)
        exact ⟨⟨pyOr rel.name rel.tag_name, rel.html_url, d,
          b.browser_download_url, toString (b.size.getD 0), versionOf rel.tag_name⟩,
          by simp [buildItem, hsel, hp, hd2]⟩
      · rw [Bool.not_eq_true] at hp
        exact ⟨⟨pyOr rel.name rel.tag_name, rel.html_url, "",
          b.browser_download_url, toString (b.size.getD 0), versionOf rel.tag_name⟩,
          by simp [buildItem, hsel, hp]⟩

/-- C5 witness: the matching direction at a concrete well-formed release. -/
theorem items_per_release_witness :
    ∃ it, buildItem zipRelease = Except.ok (some it) :=
  (items_per_release zipRelease).2
    ⟨⟨some "App-1.0.zip", some "https://example.com/a.zip", some 5⟩,
      by decide, by decide⟩ (by decide)

/-! ## Claim C6 (date normalization, and empty date when no timestamp) -/

/-- C6: the normalizer maps `2024-02-05T12:34:56Z` to exactly
`Mon, 05 Feb 2024 12:34:56 +0000`, and a release with neither `published_at`
nor `created_at` yields (if it yields an item at all) an item whose date field
is the empty string — without the normalizer being invoked (no parse can
fail). -/
theorem date_normalizer_spec :
    iso_to_rfc2822 "2024-02-05T12:34:56Z" = some "Mon, 05 Feb 2024 12:34:56 +0000" ∧
    ∀ rel : Release, rel.published_at = none → rel.created_at = none →
      ∃ o, buildItem rel = Except.ok o ∧ ∀ it, o = some it → it.pubDate = "" := by
  constructor
  · decide
  · intro rel h1 h2
    have hp : pubField rel = none := by simp [pubField, pyOr, truthy, h1, h2]
    cases hsel : selectAsset rel.assets none with
    | none =>
      exact ⟨none, by simp [buildItem, hsel], fun it h => by cases h⟩
    | some x =>
      obtain ⟨b, bp⟩ := x
      refine ⟨some ⟨pyOr rel.name rel.tag_name, rel.html_url, "",
        b.browser_download_url, toString (b.size.getD 0), versionOf rel.tag_name⟩,
        by simp [buildItem, hsel, hp, truthy], ?_⟩
      intro it h
      injection h with h
      rw [← h]

/-- C6 witness: a timestampless release with a matching asset gets an item
with an empty date field. -/
theorem date_normalizer_spec_witness :
    ∃ o, buildItem noDateRelease = Except.ok o ∧
      ∀ it, o = some it → it.pubDate = "" :=
  date_normalizer_spec.2 noDateRelease rfl rfl

/-! ## Claim C7 (HTTP failure: exit 3, nothing written) -/

/-- C7: when the releases request fails (non-2xx `HTTPError` or connection
`URLError`), the program exits with code 3 and writes no output file. -/
theorem fetch_failure_exit3 : ∀ env : Env, truthy env.github_repository = true →
    (env.fetch = Except.error FetchError.httpError ∨
      env.fetch = Except.error FetchError.urlError) →
    run env = ⟨3, true, none⟩ := by
  intro env h1 h2
  rcases h2 with h2 | h2 <;> simp [run, h1, h2]

/-- C7 witness: a concrete environment with an HTTP error. -/
theorem fetch_failure_exit3_witness :
    run ⟨some "owner/repo", none, Except.error FetchError.httpError⟩ =
      ⟨3, true, none⟩ :=
  fetch_failure_exit3 _ (by decide) (Or.inl rfl)

/-! ## Claim C8 (missing repository: exit 2, no request, nothing written) -/

/-- C8: when `GITHUB_REPOSITORY` is absent or empty, the program exits with
code 2, before issuing the network request, and no output file is written. -/
theorem missing_repo_exit2 : ∀ env : Env, truthy env.github_repository = false →
    run env = ⟨2, false, none⟩ := by
  intro env h
  simp [run, h]

/-- C8 witness: a concrete environment with the variable absent. -/
theorem missing_repo_exit2_witness :
    run ⟨none, none, Except.ok []⟩ = ⟨2, false, none⟩ :=
  missing_repo_exit2 _ rfl

/-! ## Claim C10 (absent asset size defaults to `"0"`) -/

/-- C10: the enclosure's `length` is always the decimal string of an integer,
and when the selected asset has no `size` field it is exactly `"0"`. -/
theorem length_default_zero : ∀ (rel : Release) (a : Asset) (p : Nat),
    selectAsset rel.assets none = some (a, p) →
    ∀ it, buildItem rel = Except.ok (some it) →
    (a.size = none → it.length = "0") ∧ ∃ n : Int, it.length = toString n := by
  intro rel a p hsel it hit
  have hl := buildItem_length rel a p it hsel hit
  constructor
  · intro hs
    rw [hl, hs]
    decide
  · exact ⟨a.size.getD 0, hl⟩

/-- C10 witness: the sizeless concrete release yields `length = "0"`. -/
theorem length_default_zero_witness :
    Item.length ⟨some "Rel", some "https://example.com/r", "",
      some "https://example.com/a.zip", "0", "1.0.0"⟩ = "0" ∧
    ∃ n : Int, Item.length ⟨some "Rel", some "https://example.com/r", "",
      some "https://example.com/a.zip", "0", "1.0.0"⟩ = toString n :=
  have h := length_default_zero noDateRelease
    ⟨some "App-1.0.zip", some "https://example.com/a.zip", none⟩ 0 (by decide)
    ⟨some "Rel", some "https://example.com/r", "",
      some "https://example.com/a.zip", "0", "1.0.0"⟩ rfl
  ⟨h.1 rfl, h.2⟩

/-! ## Claim C2 (release with no tag and no name) -/

/-- C2, counterexample: a release with a matching asset but neither tag nor
name yields an item whose `title` is null (not the empty string), and the
program then CRASHES serializing it (uncaught `AttributeError` escaping
`None`): exit code 1, nothing written — it does fail on this malformed
release. -/
theorem missing_title_counterexample :
    buildItem noTitleRelease = Except.ok (some ⟨none, some "https://example.com/rel",
      "", some "https://example.com/App.zip", "5", ""⟩) ∧
    run noTitleEnv = ⟨1, true, none⟩ := ⟨rfl, rfl⟩

/-- C2, amended: such a release still yields an item record whose version is
the empty string, but its title is the null value (not the empty string), and
XML serialization of that item fails — so the program does fail (uncaught
exception) because of this malformed release. -/
theorem missing_title_amended : ∀ rel : Release,
    rel.tag_name = none → rel.name = none →
    ∀ (a : Asset) (p : Nat), selectAsset rel.assets none = some (a, p) →
    dateOk rel →
    ∃ it, buildItem rel = Except.ok (some it) ∧ it.version = "" ∧
      it.title = none ∧ ∃ e, itemLines it = Except.error e := by
  intro rel h1 h2 a p hsel hd
  have ht : pyOr rel.name rel.tag_name = none := by
    simp [pyOr, truthy, h1, h2]
  by_cases hp : truthy (pubField rel) = true
  · obtain ⟨d, hd2⟩ := Option.isSome_iff_exists.mp (hd hp)
    refine ⟨⟨pyOr rel.name rel.tag_name, rel.html_url, d, a.browser_download_url,
      toString (a.size.getD 0), versionOf rel.tag_name⟩,
      by simp [buildItem, hsel, hp, hd2], by simp [versionOf, truthy, h1], ht, ?_⟩
    exact ⟨"TypeError: NoneType has no replace", by simp [itemLines, ht, escapeOpt]⟩
  · rw [Bool.not_eq_true] at hp
    refine ⟨⟨pyOr rel.name rel.tag_name, rel.html_url, "", a.browser_download_url,
      toString (a.size.getD 0), versionOf rel.tag_name⟩,
      by simp [buildItem, hsel, hp], by simp [versionOf, truthy, h1], ht, ?_⟩
    exact ⟨"TypeError: NoneType has no replace", by simp [itemLines, ht, escapeOpt]⟩

/-- C2 witness: the amended claim at the concrete tagless, nameless release. -/
theorem missing_title_amended_witness :
    ∃ it, buildItem noTitleRelease = Except.ok (some it) ∧ it.version = "" ∧
      it.title = none ∧ ∃ e, itemLines it = Except.error e :=
  missing_title_amended noTitleRelease rfl rfl
    ⟨some "App.zip", some "https://example.com/App.zip", some 5⟩ 0
    (by decide) (by decide)

/-! ## Lemmas about the escape chain -/

theorem replaceChar_cons (o : Char) (n : List Char) (c : Char) (cs : List Char) :
    replaceChar o n (c :: cs) = (if c = o then n else [c]) ++ replaceChar o n cs :=
  rfl

theorem replaceChar_append (o : Char) (n : List Char) (xs ys : List Char) :
    replaceChar o n (xs ++ ys) = replaceChar o n xs ++ replaceChar o n ys := by
  induction xs with
  | nil => rfl
  | cons c cs ih =>
    simp only [List.cons_append, replaceChar_cons, ih, List.append_assoc]

theorem escape_chain : ∀ l : List Char,
    replaceChar '<' "&lt;".data (replaceChar '>' "&gt;".data
      (replaceChar '&' "&amp;".data l)) = escList l := by
  intro l
  induction l with
  | nil => rfl
  | cons c cs ih =>
    rw [replaceChar_cons]
    by_cases h1 : c = '&'
    · subst h1
      rw [if_pos rfl, replaceChar_append, replaceChar_append]
      rw [show replaceChar '>' "&gt;".data "&amp;".data = "&amp;".data from by decide]
      rw [show replaceChar '<' "&lt;".data "&amp;".data = "&amp;".data from by decide]
      rw [ih]
      rfl
    · rw [if_neg h1, replaceChar_append, replaceChar_append]
      by_cases h2 : c = '>'
      · subst h2
        rw [show replaceChar '>' "&gt;".data ['>'] = "&gt;".data from by decide]
        rw [show replaceChar '<' "&lt;".data "&gt;".data = "&gt;".data from by decide]
        rw [ih]
        rfl
      · by_cases h3 : c = '<'
        · subst h3
          rw [show replaceChar '>' "&gt;".data ['<'] = ['<'] from by decide]
          rw [show replaceChar '<' "&lt;".data ['<'] = "&lt;".data from by decide]
          rw [ih]
          rfl
        · rw [show replaceChar '>' "&gt;".data [c] = [c] from by
            simp [replaceChar, h2]]
          rw [show replaceChar '<' "&lt;".data [c] = [c] from by
            simp [replaceChar, h3]]
          rw [ih]
          rw [show escList (c :: cs) = escChar c ++ escList cs from rfl]
          rw [show escChar c = [c] from by simp [escChar, h1, h2, h3]]

theorem saxEscape_data (s : String) : (saxEscape s).data = escList s.data :=
  escape_chain s.data

theorem isPrefixOf_append_self : ∀ l t : List Char, l.isPrefixOf (l ++ t) = true := by
  intro l t
  induction l with
  | nil => cases t <;> rfl
  | cons a as ih =>
    show ((a == a) && as.isPrefixOf (as ++ t)) = true
    rw [beq_self_eq_true, ih]
    rfl

theorem xmlTextOk_cons_other (c : Char) (X : List Char)
    (h1 : ¬ c = '<') (h2 : ¬ c = '&') :
    xmlTextOk (c :: X) = xmlTextOk X := by
  rw [xmlTextOk, if_neg h1, if_neg h2]

theorem xmlTextOk_amp (X : List Char) :
    xmlTextOk ('&' :: 'a' :: 'm' :: 'p' :: ';' :: X) = xmlTextOk X := by
  rw [xmlTextOk, if_neg (by decide : ¬ ('&' : Char) = '<'),
    if_pos (rfl : ('&' : Char) = '&'),
    show ("amp;".data.isPrefixOf ('a' :: 'm' :: 'p' :: ';' :: X)) = true from
      isPrefixOf_append_self "amp;".data X]
  simp only [Bool.true_or, Bool.true_and]
  rw [xmlTextOk_cons_other 'a' _ (by decide) (by decide),
    xmlTextOk_cons_other 'm' _ (by decide) (by decide),
    xmlTextOk_cons_other 'p' _ (by decide) (by decide),
    xmlTextOk_cons_other ';' _ (by decide) (by decide)]

theorem xmlTextOk_gt (X : List Char) :
    xmlTextOk ('&' :: 'g' :: 't' :: ';' :: X) = xmlTextOk X := by
  rw [xmlTextOk, if_neg (by decide : ¬ ('&' : Char) = '<'),
    if_pos (rfl : ('&' : Char) = '&'),
    show ("amp;".data.isPrefixOf ('g' :: 't' :: ';' :: X)) = false from rfl,
    show ("lt;".data.isPrefixOf ('g' :: 't' :: ';' :: X)) = false from rfl,
    show ("gt;".data.isPrefixOf ('g' :: 't' :: ';' :: X)) = true from
      isPrefixOf_append_self "gt;".data X]
  simp only [Bool.false_or, Bool.or_self, Bool.true_and]
  rw [xmlTextOk_cons_other 'g' _ (by decide) (by decide),
    xmlTextOk_cons_other 't' _ (by decide) (by decide),
    xmlTextOk_cons_other ';' _ (by decide) (by decide)]

theorem xmlTextOk_lt (X : List Char) :
    xmlTextOk ('&' :: 'l' :: 't' :: ';' :: X) = xmlTextOk X := by
  rw [xmlTextOk, if_neg (by decide : ¬ ('&' : Char) = '<'),
    if_pos (rfl : ('&' : Char) = '&'),
    show ("amp;".data.isPrefixOf ('l' :: 't' :: ';' :: X)) = false from rfl,
    show ("lt;".data.isPrefixOf ('l' :: 't' :: ';' :: X)) = true from
      isPrefixOf_append_self "lt;".data X]
  simp only [Bool.false_or, Bool.true_or, Bool.true_and]
  rw [xmlTextOk_cons_other 'l' _ (by decide) (by decide),
    xmlTextOk_cons_other 't' _ (by decide) (by decide),
    xmlTextOk_cons_other ';' _ (by decide) (by decide)]

theorem xmlTextOk_escList : ∀ l : List Char, xmlTextOk (escList l) = true := by
  intro l
  induction l with
  | nil => rfl
  | cons c cs ih =>
    show xmlTextOk (escChar c ++ escList cs) = true
    by_cases h1 : c = '&'
    · subst h1
      rw [show escChar '&' ++ escList cs
          = '&' :: 'a' :: 'm' :: 'p' :: ';' :: escList cs from rfl]
      rw [xmlTextOk_amp, ih]
    · by_cases h2 : c = '>'
      · subst h2
        rw [show escChar '>' ++ escList cs
            = '&' :: 'g' :: 't' :: ';' :: escList cs from rfl]
        rw [xmlTextOk_gt, ih]
      · by_cases h3 : c = '<'
        · subst h3
          rw [show escChar '<' ++ escList cs
              = '&' :: 'l' :: 't' :: ';' :: escList cs from rfl]
          rw [xmlTextOk_lt, ih]
        · rw [show escChar c = [c] from by simp [escChar, h1, h2, h3]]
          rw [List.singleton_append, xmlTextOk_cons_other c _ h3 h1, ih]

theorem escChar_count_quote (c : Char) :
    (escChar c).count '"' = ([c]).count '"' := by
  by_cases h1 : c = '&'
  · subst h1; decide
  · by_cases h2 : c = '>'
    · subst h2; decide
    · by_cases h3 : c = '<'
      · subst h3; decide
      · rw [show escChar c = [c] from by simp [escChar, h1, h2, h3]]

theorem escList_count_lt : ∀ l : List Char, (escList l).count '<' = 0 := by
  intro l
  induction l with
  | nil => rfl
  | cons c cs ih =>
    show (escChar c ++ escList cs).count '<' = 0
    rw [List.count_append, ih]
    by_cases h1 : c = '&'
    · subst h1; decide
    · by_cases h2 : c = '>'
      · subst h2; decide
      · by_cases h3 : c = '<'
        · subst h3; decide
        · rw [show escChar c = [c] from by simp [escChar, h1, h2, h3]]
          rw [Nat.add_zero, List.count_eq_zero]
          simp only [List.mem_singleton]
          exact fun he => h3 he.symm

theorem escList_count_gt : ∀ l : List Char, (escList l).count '>' = 0 := by
  intro l
  induction l with
  | nil => rfl
  | cons c cs ih =>
    show (escChar c ++ escList cs).count '>' = 0
    rw [List.count_append, ih]
    by_cases h1 : c = '&'
    · subst h1; decide
    · by_cases h2 : c = '>'
      · subst h2; decide
      · by_cases h3 : c = '<'
        · subst h3; decide
        · rw [show escChar c = [c] from by simp [escChar, h1, h2, h3]]
          rw [Nat.add_zero, List.count_eq_zero]
          simp only [List.mem_singleton]
          exact fun he => h2 he.symm

theorem escList_count_quote : ∀ l : List Char,
    (escList l).count '"' = l.count '"' := by
  intro l
  induction l with
  | nil => rfl
  | cons c cs ih =>
    show (escChar c ++ escList cs).count '"' = (c :: cs).count '"'
    rw [List.count_append, ih, escChar_count_quote c]
    simp [List.count_cons, Nat.add_comm]

/-! ## Lemmas about the unescape passes -/

theorem isPrefixOf_append_eq_false : ∀ (pat block : List Char),
    pat.isPrefixOf block = false → block.isPrefixOf pat = false →
    ∀ xs, pat.isPrefixOf (block ++ xs) = false := by
  intro pat
  induction pat with
  | nil =>
    intro block h1 h2 xs
    simp [List.isPrefixOf] at h1
  | cons p ps ih =>
    intro block h1 h2 xs
    cases block with
    | nil => simp [List.isPrefixOf] at h2
    | cons b bs =>
      show ((p == b) && ps.isPrefixOf (bs ++ xs)) = false
      by_cases hpb : p = b
      · subst hpb
        simp only [List.isPrefixOf, beq_self_eq_true, Bool.true_and] at h1 h2
        rw [ih bs h1 h2 xs]
        simp
      · rw [beq_eq_false_iff_ne.mpr hpb]
        rfl

theorem replaceSeq_nil (old rep : List Char) : replaceSeq old rep [] = [] := by
  simp only [replaceSeq]

theorem replaceSeq_cons_eq (old rep : List Char) (c : Char) (cs : List Char) :
    replaceSeq old rep (c :: cs) =
      if old.isPrefixOf (c :: cs) && !old.isEmpty then
        rep ++ replaceSeq old rep (cs.drop (old.length - 1))
      else c :: replaceSeq old rep cs := by
  simp only [replaceSeq]

theorem replaceSeq_cons_ne (p : Char) (ps rep : List Char) (c : Char)
    (cs : List Char) (h : (p == c) = false) :
    replaceSeq (p :: ps) rep (c :: cs) = c :: replaceSeq (p :: ps) rep cs := by
  rw [replaceSeq_cons_eq]
  rw [show (p :: ps).isPrefixOf (c :: cs) = false from by
    show ((p == c) && ps.isPrefixOf cs) = false
    rw [h]; rfl]
  simp

theorem replaceSeq_append_match (p : Char) (ps rep xs : List Char) :
    replaceSeq (p :: ps) rep ((p :: ps) ++ xs) = rep ++ replaceSeq (p :: ps) rep xs := by
  rw [List.cons_append, replaceSeq_cons_eq]
  rw [show (p :: ps).isPrefixOf (p :: (ps ++ xs)) = true from by
    show ((p == p) && ps.isPrefixOf (ps ++ xs)) = true
    rw [beq_self_eq_true, isPrefixOf_append_self]
    rfl]
  simp only [List.isEmpty_cons, Bool.not_false, Bool.and_true, if_true]
  rw [show (p :: ps).length - 1 = ps.length from by simp]
  rw [List.drop_left]

theorem replaceSeq_block : ∀ (pat rep block xs : List Char),
    (∀ i, i < block.length → pat.isPrefixOf (block.drop i) = false ∧
      (block.drop i).isPrefixOf pat = false) →
    replaceSeq pat rep (block ++ xs) = block ++ replaceSeq pat rep xs := by
  intro pat rep block
  induction block with
  | nil => intro xs h; rfl
  | cons b bs ih =>
    intro xs h
    have h0 := h 0 (by simp)
    have hfalse : pat.isPrefixOf (b :: (bs ++ xs)) = false :=
      isPrefixOf_append_eq_false pat (b :: bs) h0.1 h0.2 xs
    rw [List.cons_append, replaceSeq_cons_eq, hfalse]
    simp only [Bool.false_and, Bool.false_eq_true, if_false]
    rw [ih xs (fun i hi => h (i + 1) (by simpa using Nat.succ_lt_succ hi))]
    rfl

theorem unescape_pass1 : ∀ l : List Char,
    replaceSeq ['&', 'l', 't', ';'] ['<'] (escList l) = esc1List l := by
  intro l
  induction l with
  | nil => rw [show escList [] = ([] : List Char) from rfl, replaceSeq_nil]; rfl
  | cons c cs ih =>
    show replaceSeq ['&', 'l', 't', ';'] ['<'] (escChar c ++ escList cs)
      = esc1Char c ++ esc1List cs
    by_cases h1 : c = '&'
    · subst h1
      rw [show escChar '&' = ['&', 'a', 'm', 'p', ';'] from rfl]
      rw [replaceSeq_block _ _ _ _ (by decide), ih]
      rfl
    · by_cases h2 : c = '>'
      · subst h2
        rw [show escChar '>' = ['&', 'g', 't', ';'] from rfl]
        rw [replaceSeq_block _ _ _ _ (by decide), ih]
        rfl
      · by_cases h3 : c = '<'
        · subst h3
          rw [show escChar '<' = ['&', 'l', 't', ';'] from rfl]
          rw [replaceSeq_append_match, ih]
          rfl
        · rw [show escChar c = [c] from by simp [escChar, h1, h2, h3]]
          rw [List.singleton_append]
          rw [replaceSeq_cons_ne '&' _ _ c _ (beq_eq_false_iff_ne.mpr (Ne.symm h1))]
          rw [ih]
          rw [show esc1Char c = [c] from by simp [esc1Char, h1, h2]]
          rfl

theorem unescape_pass2 : ∀ l : List Char,
    replaceSeq ['&', 'g', 't', ';'] ['>'] (esc1List l) = esc2List l := by
  intro l
  induction l with
  | nil => rw [show esc1List [] = ([] : List Char) from rfl, replaceSeq_nil]; rfl
  | cons c cs ih =>
    show replaceSeq ['&', 'g', 't', ';'] ['>'] (esc1Char c ++ esc1List cs)
      = esc2Char c ++ esc2List cs
    by_cases h1 : c = '&'
    · subst h1
      rw [show esc1Char '&' = ['&', 'a', 'm', 'p', ';'] from rfl]
      rw [replaceSeq_block _ _ _ _ (by decide), ih]
      rfl
    · by_cases h2 : c = '>'
      · subst h2
        rw [show esc1Char '>' = ['&', 'g', 't', ';'] from rfl]
        rw [replaceSeq_append_match, ih]
        rfl
      · rw [show esc1Char c = [c] from by simp [esc1Char, h1, h2]]
        rw [List.singleton_append]
        rw [replaceSeq_cons_ne '&' _ _ c _ (beq_eq_false_iff_ne.mpr (Ne.symm h1))]
        rw [ih]
        rw [show esc2Char c = [c] from by simp [esc2Char, h1]]
        rfl

theorem unescape_pass3 : ∀ l : List Char,
    replaceSeq ['&', 'a', 'm', 'p', ';'] ['&'] (esc2List l) = l := by
  intro l
  induction l with
  | nil => rw [show esc2List [] = ([] : List Char) from rfl, replaceSeq_nil]
  | cons c cs ih =>
    show replaceSeq ['&', 'a', 'm', 'p', ';'] ['&'] (esc2Char c ++ esc2List cs)
      = c :: cs
    by_cases h1 : c = '&'
    · subst h1
      rw [show esc2Char '&' = ['&', 'a', 'm', 'p', ';'] from rfl]
      rw [replaceSeq_append_match, ih]
      rfl
    · rw [show esc2Char c = [c] from by simp [esc2Char, h1]]
      rw [List.singleton_append]
      rw [replaceSeq_cons_ne '&' _ _ c _ (beq_eq_false_iff_ne.mpr (Ne.symm h1))]
      rw [ih]

theorem sax_roundtrip_data (l : List Char) :
    replaceSeq "&amp;".data "&".data (replaceSeq "&gt;".data ">".data
      (replaceSeq "&lt;".data "<".data (escList l))) = l := by
  rw [show "&lt;".data = ['&', 'l', 't', ';'] from by decide]
  rw [show "<".data = ['<'] from by decide]
  rw [show "&gt;".data = ['&', 'g', 't', ';'] from by decide]
  rw [show ">".data = ['>'] from by decide]
  rw [show "&amp;".data = ['&', 'a', 'm', 'p', ';'] from by decide]
  rw [show "&".data = ['&'] from by decide]
  rw [unescape_pass1 l, unescape_pass2 l, unescape_pass3 l]

/-! ## Claim C3 (what the escaper does and does not escape) -/

/-- C3, counterexample: `sax.escape` (as called by the script, with no entity
map) does NOT escape the double-quote character, even though the script uses
it for attribute values: escaping `"` returns `"` unchanged, and a raw `"`
remains present in the escaped output. -/
theorem escape_quote_counterexample :
    saxEscape "\"" = "\"" ∧ '"' ∈ (saxEscape "\"").data :=
  ⟨rfl, by decide⟩

/-- C3, amended: every inserted value has its ampersands and angle brackets
escaped (no raw `<` or `>` survives and every `&` starts a recognized entity),
but quote characters are NOT escaped — every double quote of the input
survives verbatim — so well-formedness is not guaranteed for attribute values
containing double quotes. -/
theorem escape_no_quote_amended : ∀ s : String,
    (saxEscape s).data.count '<' = 0 ∧
    (saxEscape s).data.count '>' = 0 ∧
    xmlTextOk (saxEscape s).data = true ∧
    (saxEscape s).data.count '"' = s.data.count '"' := by
  intro s
  rw [saxEscape_data]
  exact ⟨escList_count_lt s.data, escList_count_gt s.data,
    xmlTextOk_escList s.data, escList_count_quote s.data⟩

/-! ## Claim C9 (escaping a title is reversible and well-formed) -/

/-- C9: for every release title containing `&` and `<`, the text emitted into
the `<title>` element (the `sax.escape` of the title) is well-formed XML text
content (no raw `<`, every `&` an entity reference), and `sax.unescape`
recovers the original title exactly. -/
theorem title_escape_roundtrip : ∀ t : String, '&' ∈ t.data → '<' ∈ t.data →
    xmlTextOk (saxEscape t).data = true ∧ saxUnescape (saxEscape t) = t := by
  intro t h1 h2
  constructor
  · rw [saxEscape_data]
    exact xmlTextOk_escList t.data
  · apply String.ext
    show replaceSeq "&amp;".data "&".data (replaceSeq "&gt;".data ">".data
      (replaceSeq "&lt;".data "<".data (saxEscape t).data)) = t.data
    rw [saxEscape_data]
    exact sax_roundtrip_data t.data

/-- C9 witness: the round trip at the concrete title `a&<b`. -/
theorem title_escape_roundtrip_witness :
    xmlTextOk (saxEscape "a&<b").data = true ∧
    saxUnescape (saxEscape "a&<b") = "a&<b" :=
  title_escape_roundtrip "a&<b" (by decide) (by decide)

end Appcast
